import Mathlib

/-!
Shallow embedding of the bid ingestion / ranking / finalization core of the
flash-sale bidding system (backend/app), together with theorems checking the
natural-language specification against it.

Conventions of the embedding:
* prices, scores and instants are rationals (idealizing IEEE-754 doubles and
  UTC timestamps measured in seconds);
* Redis structures are modelled as association lists (member, value), with
  the sorted-set read order derived from (score descending, member string
  ascending) as Redis defines it;
* the durable store is modelled as explicit record states, and each
  `db.commit()` of the source is one element in a list of committed states.
-/

namespace FlashSale

/-- Codepoint-lexicographic strict order on character lists, used to model the
lexicographic ordering of member strings. -/
def lexLtChars : List Char → List Char → Bool
  | [], [] => false
  | [], _ :: _ => true
  | _ :: _, [] => false
  | a :: as, b :: bs =>
    if a.toNat < b.toNat then true
    else if b.toNat < a.toNat then false
    else lexLtChars as bs

/-- Codepoint-lexicographic non-strict order on character lists. -/
def lexLeChars : List Char → List Char → Bool
  | [], _ => true
  | _ :: _, [] => false
  | a :: as, b :: bs =>
    if a.toNat < b.toNat then true
    else if b.toNat < a.toNat then false
    else lexLeChars as bs

/-- Lexicographic strict order on strings (Redis member-string order). -/
def strLt (a b : String) : Bool := lexLtChars a.data b.data

/-- Lexicographic non-strict order on strings. -/
def strLe (a b : String) : Bool := lexLeChars a.data b.data

/-- Python sequence indexing `l[i]`: a negative index counts from the end of
the sequence (`l[-1]` is the last element); out of range gives `none`
(an `IndexError` in Python). -/
def pyIndex {α : Type} (l : List α) (i : Int) : Option α :=
  if 0 ≤ i then l.get? i.toNat
  else if (l.length : Int) + i < 0 then none
  else l.get? ((l.length : Int) + i).toNat

/-- Half-even (banker's) rounding of a rational to an integer, the rounding
rule of Python's built-in `round`. -/
def roundHalfEven (x : ℚ) : ℤ :=
  if x - ⌊x⌋ < 1 / 2 then ⌊x⌋
  else if x - ⌊x⌋ > 1 / 2 then ⌊x⌋ + 1
  else if ⌊x⌋ % 2 = 0 then ⌊x⌋ else ⌊x⌋ + 1

/-- Python `round(v, 2)`: round to two decimal places, half to even. -/
def pyRound2 (v : ℚ) : ℚ := (roundHalfEven (v * 100) : ℚ) / 100

/-! ## Score calculator (services/bidding_service.py) -/

/-- Embeds `calculate_bid_score` (bidding_service.py lines 146-156):
`score = alpha * price + beta / (response_time + 1) + gamma * weight`.
Note: in the source a `response_time_seconds` of exactly `-1` raises
`ZeroDivisionError`; in `ℚ` the division then denotes `beta / 0 = 0`. -/
def calculate_bid_score (price response_time_seconds weight alpha beta gamma : ℚ) : ℚ :=
  alpha * price + beta / (response_time_seconds + 1) + gamma * weight

/-- Embeds the response-time computation of `process_new_bid`
(bidding_service.py line 180):
`response_time = (bid_timestamp - start_time).total_seconds()`.
There is no clamping of negative values in the source. -/
def response_time_seconds (bid_timestamp start_time : ℚ) : ℚ :=
  bid_timestamp - start_time

/-! ## Durable bid rows and finalization (bidding_service.py lines 220-303) -/

/-- One row of the durable `bids` table relevant to finalization:
`user_id`, `bid_price`, `bid_score`. -/
structure DBid where
  user_id : String
  bid_price : ℚ
  bid_score : ℚ
deriving DecidableEq, Repr

/-- One row of the durable `rankings` table as created by
`finalize_session_results`. -/
structure RankRow where
  user_id : String
  ranking : Nat
  bid_price : ℚ
  bid_score : ℚ
  is_winner : Bool
deriving DecidableEq, Repr

/-- Comparison used by the finalize sort: `b` before `c` when
`c.bid_score ≤ b.bid_score` (score descending, with ties allowed). -/
def scoreGE (b c : DBid) : Prop := c.bid_score ≤ b.bid_score

instance : DecidableRel scoreGE :=
  fun b c => inferInstanceAs (Decidable (c.bid_score ≤ b.bid_score))

instance : IsTotal DBid scoreGE := ⟨fun a b => le_total b.bid_score a.bid_score⟩

instance : IsTrans DBid scoreGE := ⟨fun _ _ _ h1 h2 => le_trans h2 h1⟩

/-- Embeds `sorted(all_bids, key=lambda b: b.bid_score, reverse=True)`
(bidding_service.py line 249). Python's `sorted` is a stable sort; a stable
insertion sort with the score-descending comparison is extensionally the same
function: equal-score bids keep their input (database retrieval) order. -/
def sortBidsByScoreDesc (bids : List DBid) : List DBid :=
  List.insertionSort scoreGE bids

/-- Embeds the ranking-row loop of `finalize_session_results`
(bidding_service.py lines 274-289): `for rank, bid in
enumerate(sorted_bids, start=1)` with `is_winner = rank <= inventory`,
starting from a given rank. -/
def makeRankingsFrom (inventory : Nat) : Nat → List DBid → List RankRow
  | _, [] => []
  | rank, b :: bs =>
    { user_id := b.user_id
      ranking := rank
      bid_price := b.bid_price
      bid_score := b.bid_score
      is_winner := decide (rank ≤ inventory) } :: makeRankingsFrom inventory (rank + 1) bs

/-- Ranking rows materialized by `finalize_session_results`, ranks starting
at 1 over the sorted bid list. -/
def makeRankingRows (inventory : Nat) (sorted_bids : List DBid) : List RankRow :=
  makeRankingsFrom inventory 1 sorted_bids

/-- Embeds the final-price computation of `finalize_session_results`
(bidding_service.py lines 251-259): `None` when there are no bids; the
`inventory - 1` indexed sorted bid when there are at least `inventory` bids;
otherwise the last (`[-1]`) sorted bid.  Python's negative indexing is kept
via `pyIndex`. -/
def computeFinalPrice (inventory : Nat) (sorted_bids : List DBid) : Option ℚ :=
  if sorted_bids.isEmpty then none
  else if inventory ≤ sorted_bids.length then
    (pyIndex sorted_bids ((inventory : Int) - 1)).map DBid.bid_price
  else
    (pyIndex sorted_bids (-1)).map DBid.bid_price

/-- Pure core of `finalize_session_results` (bidding_service.py lines
240-295): from the session inventory and the durable bid rows (in database
retrieval order), the final price and the materialized ranking rows. -/
def finalize_session_results (inventory : Nat) (bids : List DBid) : Option ℚ × List RankRow :=
  let sorted := sortBidsByScoreDesc bids
  (computeFinalPrice inventory sorted, makeRankingRows inventory sorted)

/-- Modelled from the spec: the finalize ordering as the spec words it,
"sort by (score DESC, user_id ASC)" — score descending, ties broken by
lexicographic user_id ascending.  Used only to compare the source's sort
against the spec's claimed sort. -/
def specScoreUserOrder (b c : DBid) : Prop :=
  c.bid_score < b.bid_score ∨ (b.bid_score = c.bid_score ∧ strLe b.user_id c.user_id = true)

instance : DecidableRel specScoreUserOrder :=
  fun b c => inferInstanceAs
    (Decidable (c.bid_score < b.bid_score ∨
      (b.bid_score = c.bid_score ∧ strLe b.user_id c.user_id = true)))

/-- Modelled from the spec: sorting by (score DESC, user_id ASC). -/
def specSortByScoreThenUser (bids : List DBid) : List DBid :=
  List.insertionSort specScoreUserOrder bids

/-! ## Durable store states and the session monitor
(tasks/session_monitor.py lines 15-65) -/

/-- The columns of a `sessions` row that the monitor and finalizer touch. -/
structure SessionRow where
  is_active : Bool
  final_price : Option ℚ
  end_time : ℚ
  inventory : Nat
  updated_at : ℚ
deriving DecidableEq, Repr

/-- A committed durable-store state: the session row, its `bids` rows (in
retrieval order) and its `rankings` rows. -/
structure DbState where
  session : SessionRow
  bids : List DBid
  rankings : List RankRow
deriving DecidableEq, Repr

/-- The durable state committed by the single `db.commit()` inside
`finalize_session_results` (bidding_service.py lines 261-295): prior ranking
rows for the session are deleted, the new ranking rows inserted,
`session.final_price` and `session.updated_at` set.  `is_active` is NOT
touched by this transaction. -/
def finalize_session_results_commit (st : DbState) (now : ℚ) : DbState :=
  let sorted := sortBidsByScoreDesc st.bids
  { st with
    rankings := makeRankingRows st.session.inventory sorted
    session := { st.session with
      final_price := computeFinalPrice st.session.inventory sorted
      updated_at := now } }

/-- The durable state committed by the monitor's own `db.commit()`
(session_monitor.py lines 58-63): `session.is_active = False`. -/
def deactivateCommit (st : DbState) : DbState :=
  { st with session := { st.session with is_active := false } }

/-- The monitor's selection predicate (session_monitor.py lines 24-29):
`is_active == True AND end_time <= now`. -/
def sessionExpiredSelected (s : SessionRow) (now : ℚ) : Bool :=
  s.is_active && decide (s.end_time ≤ now)

/-- Embeds `check_and_update_session_status` (session_monitor.py lines
15-65) restricted to a single candidate session.  The result is the sequence
of durable-store commits the run produces for that session.  When the session
is selected as expired and finalization succeeds, the commits are: first the
commit inside `finalize_session_results`, then the monitor's commit of
`is_active = False`.  When `force_persist_session`/`finalize_session_results`
raises, the exception is caught before finalize's commit, and only the
deactivation commit occurs. -/
def check_and_update_session_status
    (st : DbState) (finalizeRaises : Bool) (now : ℚ) : List DbState :=
  if sessionExpiredSelected st.session now then
    if finalizeRaises then [deactivateCommit st]
    else
      [finalize_session_results_commit st now,
       deactivateCommit (finalize_session_results_commit st now)]
  else []

/-! ## Cache state and the bid ingestion hot path
(bidding_service.py lines 159-217, api/bid.py lines 40-138) -/

/-- Upsert into an association list keyed by member string: the semantics of
`ZADD` on an existing member and of `HSET` (latest value wins). -/
def upsertAssoc {β : Type} : List (String × β) → String → β → List (String × β)
  | [], k, v => [(k, v)]
  | (k', v') :: rest, k, v =>
    if k' = k then (k, v) :: rest else (k', v') :: upsertAssoc rest k v

/-- `ZSCORE`: the score stored for a member, if present. -/
def zscoreL (l : List (String × ℚ)) (m : String) : Option ℚ :=
  (l.find? (fun e => e.1 == m)).map Prod.snd

/-- `ZREVRANK`: the 0-based rank of a member in descending-score order.
Redis orders equal scores by member string ascending, so in the reversed
order a member is preceded by entries of strictly greater score or of equal
score and lexicographically greater member. -/
def zrevrankL (l : List (String × ℚ)) (m : String) : Option Nat :=
  match zscoreL l m with
  | none => none
  | some s =>
    some (l.filter (fun e => s < e.2 || (e.2 == s && strLt m e.1))).length

/-- The per-bid hash `bid:{session_id}:{user_id}` written by
`process_new_bid`. -/
structure BidHash where
  price : ℚ
  score : ℚ
  response_time : ℚ
  timestamp : ℚ
deriving DecidableEq, Repr

/-- The cache state of one session: the `ranking:{session_id}` sorted set and
the `bid:{session_id}:{user_id}` hashes, keyed by user id. -/
structure CacheState where
  ranking : List (String × ℚ)
  bids : List (String × BidHash)
deriving DecidableEq, Repr

/-- Session parameters as resolved by `get_session_params_from_cache`. -/
structure SessionParams where
  alpha : ℚ
  beta : ℚ
  gamma : ℚ
  start_time : ℚ
deriving DecidableEq, Repr

/-- The value returned by `process_new_bid` (bidding_service.py lines
212-217). -/
structure BidResult where
  score : ℚ
  rank : Option Nat
  response_time : ℚ
  timestamp : ℚ
deriving DecidableEq, Repr

/-- Embeds `process_new_bid` (bidding_service.py lines 159-217).  The session
parameters and user weight resolved through the read-through caches, and the
`datetime.now` stamp, are explicit arguments.  The pipeline upserts the
ranking sorted-set entry and the bid hash; the 1-based rank is then read back
with `ZREVRANK` (+1). -/
def process_new_bid (st : CacheState) (user_id : String) (bid_price : ℚ)
    (bid_timestamp : ℚ) (p : SessionParams) (weight : ℚ) : CacheState × BidResult :=
  let response_time := response_time_seconds bid_timestamp p.start_time
  let score := calculate_bid_score bid_price response_time weight p.alpha p.beta p.gamma
  let st' : CacheState :=
    { ranking := upsertAssoc st.ranking user_id score
      bids := upsertAssoc st.bids user_id
        { price := bid_price, score := score
          response_time := response_time, timestamp := bid_timestamp } }
  let rank := (zrevrankL st'.ranking user_id).map (fun r => r + 1)
  (st', { score := score, rank := rank
          response_time := response_time, timestamp := bid_timestamp })

/-- The Redis commands issued by the bid submission path, reified so that the
grouping into one pipelined batch can be stated. -/
inductive RedisCmd where
  | zadd (key : String) (member : String) (score : ℚ)
  | hsetBidHash (key : String) (price : ℚ) (score : ℚ) (response_time : ℚ) (timestamp : ℚ)
  | expire (key : String) (seconds : Nat)
  | sadd (key : String) (member : String)
  | hsetBidMetadata (key : String) (user_id : String) (bid_price : ℚ) (bid_score : ℚ)
      (updated_at : ℚ)
deriving DecidableEq, Repr

/-- Embeds the single pipelined batch of `process_new_bid`
(bidding_service.py lines 194-207): `ZADD`, `HSET` of the bid hash, and the
two `EXPIRE`s, executed by one `pipe.execute()`. -/
def process_new_bid_pipeline (session_id user_id : String)
    (bid_price score response_time timestamp : ℚ) (cacheExpire : Nat) : List RedisCmd :=
  [RedisCmd.zadd ("ranking:" ++ session_id) user_id score,
   RedisCmd.hsetBidHash ("bid:" ++ session_id ++ ":" ++ user_id)
     bid_price score response_time timestamp,
   RedisCmd.expire ("ranking:" ++ session_id) cacheExpire,
   RedisCmd.expire ("bid:" ++ session_id ++ ":" ++ user_id) cacheExpire]

/-- Embeds the cache commands issued by `submit_bid` AFTER `process_new_bid`
returns (api/bid.py lines 97-116): `SADD` into `dirty_sessions`, `HSET` of
the `bid_metadata` mirror hash, and its `EXPIRE`, each awaited as its own
command, not part of any pipeline. -/
def submit_bid_post_pipeline (session_id user_id : String)
    (bid_price score now : ℚ) : List RedisCmd :=
  [RedisCmd.sadd ("dirty_sessions") session_id,
   RedisCmd.hsetBidMetadata ("bid_metadata:" ++ session_id ++ ":" ++ user_id)
     user_id bid_price score now,
   RedisCmd.expire ("bid_metadata:" ++ session_id ++ ":" ++ user_id) 3600]

/-- The full ordered sequence of cache writes of one successful `submit_bid`
call: first the pipelined batch, then the three post-pipeline commands. -/
def submit_bid_cache_cmds (session_id user_id : String)
    (bid_price score response_time timestamp now : ℚ) (cacheExpire : Nat) : List RedisCmd :=
  process_new_bid_pipeline session_id user_id bid_price score response_time timestamp cacheExpire
    ++ submit_bid_post_pipeline session_id user_id bid_price score now

/-- Recognizes the `SADD dirty_sessions …` command. -/
def isDirtySessionsSadd : RedisCmd → Bool
  | RedisCmd.sadd k _ => k == "dirty_sessions"
  | _ => false

/-- Recognizes the `HSET bid_metadata:…` command. -/
def isBidMetadataHset : RedisCmd → Bool
  | RedisCmd.hsetBidMetadata _ _ _ _ _ => true
  | _ => false

/-! ## Leaderboard paging and threshold score (api/bid.py lines 141-321) -/

/-- Embeds the `page` validation of `get_leaderboard` (api/bid.py lines
152-153): `if page < 1: page = 1`. -/
def effective_page (page : Int) : Int :=
  if page < 1 then 1 else page

/-- Embeds the `page_size` validation of `get_leaderboard` (api/bid.py lines
154-155): `if page_size < 1 or page_size > 100: page_size = 50` — an
out-of-range value is replaced by the default 50, not clamped. -/
def effective_page_size (page_size : Int) : Int :=
  if page_size < 1 ∨ page_size > 100 then 50 else page_size

/-- Embeds the threshold-score computation on the sorted-set path of
`get_leaderboard` (api/bid.py lines 293-308), over the full descending
`ZREVRANGE` withscores listing: `None` when empty, the last entry's score
when there are fewer bidders than `inventory`, else the entry at index
`inventory - 1`. -/
def compute_threshold_zset (all_top_bidders : List (String × ℚ)) (inventory : Nat) : Option ℚ :=
  if all_top_bidders.isEmpty then none
  else if all_top_bidders.length < inventory then
    (pyIndex all_top_bidders (-1)).map Prod.snd
  else
    (pyIndex all_top_bidders ((inventory : Int) - 1)).map Prod.snd

/-- Embeds the threshold-score computation on the durable-store fallback path
of `get_leaderboard` (api/bid.py lines 221-224), over all bids sorted by
score descending. -/
def compute_threshold_db (all_bids : List DBid) (inventory : Nat) : Option ℚ :=
  if all_bids.isEmpty then none
  else if all_bids.length < inventory then
    (pyIndex all_bids (-1)).map DBid.bid_score
  else
    (pyIndex all_bids ((inventory : Int) - 1)).map DBid.bid_score

/-- Embeds the response rendering `round(threshold_score, 2) if
threshold_score else None` (api/bid.py lines 232 and 316): Python truthiness
maps both `None` and `0.0` to `None`. -/
def reported_threshold (t : Option ℚ) : Option ℚ :=
  match t with
  | none => none
  | some v => if v = 0 then none else some (pyRound2 v)

/-- A concrete expired-session durable state used to instantiate theorems:
active, no final price yet, `end_time = 10`, inventory 1, a single bid, and
no ranking rows. -/
def exampleExpiredState : DbState :=
  { session := { is_active := true, final_price := none, end_time := 10
                 inventory := 1, updated_at := 0 }
    bids := [⟨("u"), 100, 5⟩]
    rankings := [] }

/-! ## Theorems -/

/-- C2: the claim asserts `response_time = max(0, bid_timestamp −
session.start_time)`, clamped to 0 when the bid timestamp precedes
`start_time`.  The source (bidding_service.py line 180) performs no clamping:
with `start_time = 10` and `bid_timestamp = 9` the computed response time is
`-1`, not `max 0 (-1) = 0`, and the `β/(T+1)` denominator of
`calculate_bid_score` is then exactly `0` — a `ZeroDivisionError` in the
source rather than the claimed finite score. -/
theorem C2_response_time_not_clamped :
    response_time_seconds 9 10 = -1
    ∧ max 0 (response_time_seconds 9 10) = 0
    ∧ response_time_seconds 9 10 ≠ max 0 (response_time_seconds 9 10)
    ∧ response_time_seconds 9 10 + 1 = 0 := by
  refine ⟨by norm_num [response_time_seconds], ?_, ?_, by norm_num [response_time_seconds]⟩
  · rw [show response_time_seconds 9 10 = -1 by norm_num [response_time_seconds]]
    norm_num
  · rw [show response_time_seconds 9 10 = -1 by norm_num [response_time_seconds]]
    norm_num

/-- C6 (counterexample): the claim asserts that the pipelined batch of the
commit step contains the `SADD` into `dirty_sessions` and the `HSET` of the
`bid_metadata` mirror hash.  At a concrete bid, the pipeline executed by
`process_new_bid` is exactly the four commands `ZADD`, `HSET` of the bid
hash, and two `EXPIRE`s, and contains neither the `SADD` nor any
`bid_metadata` `HSET`. -/
theorem C6_pipeline_missing_sadd_and_metadata :
    process_new_bid_pipeline ("s") ("u") 10 20 1 5 3600 =
      [RedisCmd.zadd ("ranking:s") ("u") 20,
       RedisCmd.hsetBidHash ("bid:s:u") 10 20 1 5,
       RedisCmd.expire ("ranking:s") 3600,
       RedisCmd.expire ("bid:s:u") 3600]
    ∧ (process_new_bid_pipeline ("s") ("u") 10 20 1 5 3600).all
        (fun c => !isDirtySessionsSadd c && !isBidMetadataHset c) = true := by
  decide

/-- C6 (amended): the pipelined batch of `process_new_bid` consists exactly
of the `ZADD`, the `HSET` of the per-bid hash, and the two `EXPIRE`s; the
`SADD` of the session id into `dirty_sessions` and the `HSET`/`EXPIRE` of the
`bid_metadata` mirror hash are issued by `submit_bid` afterwards as separate
individual commands outside the pipeline. -/
theorem C6_commit_commands (s u : String) (p sc rt ts now : ℚ) (exp : Nat) :
    submit_bid_cache_cmds s u p sc rt ts now exp =
      process_new_bid_pipeline s u p sc rt ts exp
        ++ submit_bid_post_pipeline s u p sc now
    ∧ process_new_bid_pipeline s u p sc rt ts exp =
        [RedisCmd.zadd ("ranking:" ++ s) u sc,
         RedisCmd.hsetBidHash ("bid:" ++ s ++ ":" ++ u) p sc rt ts,
         RedisCmd.expire ("ranking:" ++ s) exp,
         RedisCmd.expire ("bid:" ++ s ++ ":" ++ u) exp]
    ∧ (process_new_bid_pipeline s u p sc rt ts exp).all
        (fun c => !isDirtySessionsSadd c && !isBidMetadataHset c) = true
    ∧ (submit_bid_post_pipeline s u p sc now).any isDirtySessionsSadd = true
    ∧ (submit_bid_post_pipeline s u p sc now).any isBidMetadataHset = true := by
  refine ⟨rfl, rfl, ?_, ?_, ?_⟩ <;>
    simp [process_new_bid_pipeline, submit_bid_post_pipeline,
      isDirtySessionsSadd, isBidMetadataHset]

/-- C8 (counterexample): the claim asserts the effective page size equals
`min(100, max(1, requested))`; for a requested page size of 150 the source
resets to the default 50 while the claimed clamping formula gives 100. -/
theorem C8_page_size_not_clamped :
    effective_page_size 150 = 50
    ∧ min 100 (max 1 (150 : Int)) = 100
    ∧ effective_page_size 150 ≠ min 100 (max 1 150) := by
  decide

/-- C8 (amended): `get_leaderboard` defaults to `page=1, page_size=50`; the
effective page equals `max(1, requested page)` (so is at least 1), and a
requested page size is kept when it lies in `[1,100]` but replaced by the
default 50 (not clamped) when outside that range; the effective page size
always lies in `[1,100]`. -/
theorem C8_paging_validation (page page_size : Int) :
    effective_page 1 = 1
    ∧ effective_page_size 50 = 50
    ∧ effective_page page = max 1 page
    ∧ effective_page_size page_size =
        (if 1 ≤ page_size ∧ page_size ≤ 100 then page_size else 50)
    ∧ 1 ≤ effective_page page
    ∧ 1 ≤ effective_page_size page_size
    ∧ effective_page_size page_size ≤ 100 := by
  unfold effective_page effective_page_size
  refine ⟨rfl, rfl, ?_, ?_, ?_, ?_, ?_⟩ <;> split_ifs <;> omega

/-- C10: in the `get_leaderboard` response, a computed threshold score of
exactly 0 is rendered as `None`, on both the sorted-set path and the
durable-store fallback path, just as it is when there are no bidders. -/
theorem C10_zero_threshold_reported_null
    (all_top_bidders : List (String × ℚ)) (all_bids : List DBid) (inventory : Nat)
    (hz : compute_threshold_zset all_top_bidders inventory = some 0)
    (hd : compute_threshold_db all_bids inventory = some 0) :
    reported_threshold (compute_threshold_zset all_top_bidders inventory) = none
    ∧ reported_threshold (compute_threshold_db all_bids inventory) = none
    ∧ reported_threshold (compute_threshold_zset [] inventory) = none
    ∧ reported_threshold (compute_threshold_db [] inventory) = none := by
  rw [hz, hd]
  refine ⟨by simp [reported_threshold], by simp [reported_threshold], ?_, ?_⟩ <;>
    simp [compute_threshold_zset, compute_threshold_db, reported_threshold]

/-- C10 (witness): with one bidder whose score is 0 and inventory 1, the
threshold computed on either path is `some 0` and is reported as `None`. -/
theorem C10_zero_threshold_reported_null_witness :
    reported_threshold (compute_threshold_zset [(("u"), 0)] 1) = none
    ∧ reported_threshold (compute_threshold_db [⟨("u"), 5, 0⟩] 1) = none
    ∧ reported_threshold (compute_threshold_zset [] 1) = none
    ∧ reported_threshold (compute_threshold_db [] 1) = none :=
  C10_zero_threshold_reported_null [(("u"), 0)] [⟨("u"), 5, 0⟩] 1 (by decide) (by decide)

/-- C1 (counterexample): the claim asserts that a finalization attempt
commits the ranking-row replacement, `final_price`, and `is_active = false`
atomically — after any attempt either all of these effects are committed or
none.  On a concrete expired session, the monitor run produces a committed
durable state (the commit inside `finalize_session_results`) in which the new
ranking rows and `final_price` are already durable while `is_active` is still
`true`: neither all effects nor none. -/
theorem C1_finalization_not_atomic :
    ¬ ∀ c ∈ check_and_update_session_status exampleExpiredState false 10,
        (c.session.is_active = false ∧ c.session.final_price ≠ none ∧ c.rankings ≠ [])
        ∨ (c.session.is_active = true ∧ c.session.final_price = none ∧ c.rankings = []) := by
  decide

/-- C1 (amended): for an expired active session whose finalization does not
raise, the monitor produces exactly two durable-store commits: first the
single transaction of `finalize_session_results`, which replaces the ranking
rows and sets `final_price` but leaves `is_active` untouched (still true),
and then a separate commit by the monitor that flips `is_active` to false,
keeping the rankings and `final_price` of the first commit. -/
theorem C1_finalization_two_commits (st : DbState) (now : ℚ)
    (hA : st.session.is_active = true) (hE : st.session.end_time ≤ now) :
    check_and_update_session_status st false now =
      [finalize_session_results_commit st now,
       deactivateCommit (finalize_session_results_commit st now)]
    ∧ (finalize_session_results_commit st now).session.is_active = true
    ∧ (finalize_session_results_commit st now).rankings =
        makeRankingRows st.session.inventory (sortBidsByScoreDesc st.bids)
    ∧ (finalize_session_results_commit st now).session.final_price =
        computeFinalPrice st.session.inventory (sortBidsByScoreDesc st.bids)
    ∧ (deactivateCommit (finalize_session_results_commit st now)).session.is_active = false
    ∧ (deactivateCommit (finalize_session_results_commit st now)).rankings =
        (finalize_session_results_commit st now).rankings
    ∧ (deactivateCommit (finalize_session_results_commit st now)).session.final_price =
        (finalize_session_results_commit st now).session.final_price := by
  refine ⟨?_, ?_, rfl, rfl, rfl, rfl, rfl⟩
  · simp [check_and_update_session_status, sessionExpiredSelected, hA, hE]
  · simp [finalize_session_results_commit, hA]

/-- C1 (witness): the two-commit shape on a concrete expired session. -/
theorem C1_finalization_two_commits_witness :
    check_and_update_session_status exampleExpiredState false 10 =
      [finalize_session_results_commit exampleExpiredState 10,
       deactivateCommit (finalize_session_results_commit exampleExpiredState 10)]
    ∧ (finalize_session_results_commit exampleExpiredState 10).session.is_active = true
    ∧ (finalize_session_results_commit exampleExpiredState 10).rankings =
        makeRankingRows exampleExpiredState.session.inventory
          (sortBidsByScoreDesc exampleExpiredState.bids)
    ∧ (finalize_session_results_commit exampleExpiredState 10).session.final_price =
        computeFinalPrice exampleExpiredState.session.inventory
          (sortBidsByScoreDesc exampleExpiredState.bids)
    ∧ (deactivateCommit (finalize_session_results_commit exampleExpiredState 10)).session.is_active
        = false
    ∧ (deactivateCommit (finalize_session_results_commit exampleExpiredState 10)).rankings =
        (finalize_session_results_commit exampleExpiredState 10).rankings
    ∧ (deactivateCommit
          (finalize_session_results_commit exampleExpiredState 10)).session.final_price =
        (finalize_session_results_commit exampleExpiredState 10).session.final_price :=
  C1_finalization_two_commits exampleExpiredState 10 (by decide) (by decide)

/-- C9: when finalization of an expired session raises, the monitor still
flips `is_active` to false and commits: the only commit of the run leaves the
session deactivated with its ranking rows and `final_price` unchanged (no
rankings and a null final price for a first attempt), and the session is
never selected by any later monitor cycle. -/
theorem C9_failed_finalization_still_deactivates (st : DbState) (now later : ℚ) (b : Bool)
    (hA : st.session.is_active = true) (hE : st.session.end_time ≤ now)
    (hR : st.rankings = []) (hF : st.session.final_price = none) :
    check_and_update_session_status st true now = [deactivateCommit st]
    ∧ (deactivateCommit st).session.is_active = false
    ∧ (deactivateCommit st).rankings = []
    ∧ (deactivateCommit st).session.final_price = none
    ∧ check_and_update_session_status (deactivateCommit st) b later = [] := by
  refine ⟨?_, rfl, hR, hF, ?_⟩
  · simp [check_and_update_session_status, sessionExpiredSelected, hA, hE]
  · simp [check_and_update_session_status, sessionExpiredSelected, deactivateCommit]

/-- C9 (witness): the failed-finalization path on a concrete expired
session. -/
theorem C9_failed_finalization_still_deactivates_witness :
    check_and_update_session_status exampleExpiredState true 10 =
      [deactivateCommit exampleExpiredState]
    ∧ (deactivateCommit exampleExpiredState).session.is_active = false
    ∧ (deactivateCommit exampleExpiredState).rankings = []
    ∧ (deactivateCommit exampleExpiredState).session.final_price = none
    ∧ check_and_update_session_status (deactivateCommit exampleExpiredState) false 20 = [] :=
  C9_failed_finalization_still_deactivates exampleExpiredState 10 20 false
    (by decide) (by decide) (by decide) (by decide)

/-- Upserting the same key/value twice is the same as upserting it once. -/
theorem upsertAssoc_upsertAssoc {β : Type} (l : List (String × β)) (k : String) (v : β) :
    upsertAssoc (upsertAssoc l k v) k v = upsertAssoc l k v := by
  induction l with
  | nil => simp [upsertAssoc]
  | cons e rest ih =>
    by_cases h : e.1 = k
    · simp [upsertAssoc, h]
    · simp [upsertAssoc, h, ih]

/-- C7 (counterexample): the claim asserts that a second submission of the
same `(session_id, user_id, price)` yields the same final
`(price, score, rank)`.  The source stamps `bid_timestamp = now()` afresh on
each call, so a replay two seconds later recomputes a different score: with
`α=1, β=100, γ=1`, session start 0 and weight 1, a bid of 300 at `t=1`
scores 351 but its replay at `t=3` scores 326. -/
theorem C7_replay_later_changes_score :
    ((process_new_bid
        (process_new_bid ⟨[], []⟩ ("u") 300 1 ⟨1, 100, 1, 0⟩ 1).1
        ("u") 300 3 ⟨1, 100, 1, 0⟩ 1).2).score = 326
    ∧ ((process_new_bid ⟨[], []⟩ ("u") 300 1 ⟨1, 100, 1, 0⟩ 1).2).score = 351
    ∧ ((process_new_bid
          (process_new_bid ⟨[], []⟩ ("u") 300 1 ⟨1, 100, 1, 0⟩ 1).1
          ("u") 300 3 ⟨1, 100, 1, 0⟩ 1).2).score
        ≠ ((process_new_bid ⟨[], []⟩ ("u") 300 1 ⟨1, 100, 1, 0⟩ 1).2).score := by
  refine ⟨?_, ?_, ?_⟩ <;>
    norm_num [process_new_bid, calculate_bid_score, response_time_seconds]

/-- C7 (amended): replaying the same `(session_id, user_id, price)` WITH THE
SAME BID TIMESTAMP is idempotent: the second `process_new_bid` recomputes the
same score, its `ZADD`/`HSET` upserts overwrite the existing entries with
identical values (the cache state is unchanged), and it returns the same
`(score, rank, response_time, timestamp)` — hence the same
`(price, score, rank)`.  (With a later timestamp the recomputed score
differs, so the claim as stated fails.) -/
theorem C7_replay_same_timestamp_idempotent (st : CacheState) (u : String)
    (bid_price bid_timestamp : ℚ) (p : SessionParams) (weight : ℚ) :
    (process_new_bid (process_new_bid st u bid_price bid_timestamp p weight).1
        u bid_price bid_timestamp p weight).1
      = (process_new_bid st u bid_price bid_timestamp p weight).1
    ∧ (process_new_bid (process_new_bid st u bid_price bid_timestamp p weight).1
        u bid_price bid_timestamp p weight).2
      = (process_new_bid st u bid_price bid_timestamp p weight).2 := by
  constructor <;> simp [process_new_bid, upsertAssoc_upsertAssoc]

/-- Ranks are assigned consecutively: the ranking numbers of
`makeRankingsFrom K r bs` are `r, r+1, …, r+|bs|-1`. -/
theorem makeRankingsFrom_map_ranking (K r : Nat) (bs : List DBid) :
    (makeRankingsFrom K r bs).map RankRow.ranking = List.range' r bs.length := by
  induction bs generalizing r with
  | nil => simp [makeRankingsFrom]
  | cons b bs ih => simp [makeRankingsFrom, List.range', ih]

/-- C3 (counterexample): the claim asserts finalization ranks bids by
(score DESC, user_id ASC).  With two equal-score bids retrieved in the order
`u2, u1`, the source's stable score-only sort ranks `u2` first, while the
claimed ordering would rank `u1` first; the two sorts disagree. -/
theorem C3_tie_not_broken_by_user_id :
    (makeRankingRows 5 (sortBidsByScoreDesc [⟨("u2"), 100, 10⟩, ⟨("u1"), 90, 10⟩])).map
        (fun r => (r.ranking, r.user_id))
      = [(1, ("u2")), (2, ("u1"))]
    ∧ (specSortByScoreThenUser [⟨("u2"), 100, 10⟩, ⟨("u1"), 90, 10⟩]).map DBid.user_id
      = [("u1"), ("u2")]
    ∧ sortBidsByScoreDesc [⟨("u2"), 100, 10⟩, ⟨("u1"), 90, 10⟩]
      ≠ specSortByScoreThenUser [⟨("u2"), 100, 10⟩, ⟨("u1"), 90, 10⟩] := by
  decide

/-- C3 (amended): at finalization, ranks 1..N are assigned to the bids sorted
by score descending only, with a stable sort: the ranking is a permutation of
the session's bids in nonincreasing score order, and equal-score bids keep
the order in which the durable store returned them (so the result is NOT the
(score DESC, user_id ASC) order and is not determined by the multiset of bids
alone). -/
theorem C3_rank_by_stable_score_sort (K : Nat) (bids : List DBid) :
    List.Perm (sortBidsByScoreDesc bids) bids
    ∧ List.Sorted scoreGE (sortBidsByScoreDesc bids)
    ∧ (makeRankingRows K (sortBidsByScoreDesc bids)).map RankRow.ranking
        = List.range' 1 bids.length := by
  refine ⟨List.perm_insertionSort scoreGE bids, List.sorted_insertionSort scoreGE bids, ?_⟩
  rw [makeRankingRows, makeRankingsFrom_map_ranking, sortBidsByScoreDesc,
    (List.perm_insertionSort scoreGE bids).length_eq]

/-- A list of positive length is not empty. -/
theorem length_pos_isEmpty_false {α : Type} (l : List α) (h : 0 < l.length) :
    l.isEmpty = false := by
  cases l with
  | nil => simp at h
  | cons a as => rfl

/-- A list of length zero is empty. -/
theorem length_zero_isEmpty_true {α : Type} (l : List α) (h : l.length = 0) :
    l.isEmpty = true := by
  cases l with
  | nil => rfl
  | cons a as => simp at h

/-- The ranking row at index `i` carries rank `r + i` and copies the fields
of the bid at index `i` of the sorted list. -/
theorem makeRankingsFrom_get (K r : Nat) (bs : List DBid) (i : Nat) :
    (makeRankingsFrom K r bs).get? i = (bs.get? i).map (fun b =>
      { user_id := b.user_id, ranking := r + i, bid_price := b.bid_price
        bid_score := b.bid_score, is_winner := decide (r + i ≤ K) }) := by
  induction bs generalizing r i with
  | nil => simp [makeRankingsFrom]
  | cons b bs ih =>
    cases i with
    | zero => simp [makeRankingsFrom]
    | succ i =>
      simp only [makeRankingsFrom, List.get?_cons_succ, ih (r + 1) i]
      rw [show r + 1 + i = r + (i + 1) by omega]

/-- Every materialized ranking row has its rank in `[r, r + |bs|)` and its
winner flag set exactly when its rank is at most the inventory. -/
theorem makeRankingsFrom_mem (K r0 : Nat) (bs : List DBid) :
    ∀ row ∈ makeRankingsFrom K r0 bs,
      r0 ≤ row.ranking ∧ row.ranking < r0 + bs.length
      ∧ row.is_winner = decide (row.ranking ≤ K) := by
  induction bs generalizing r0 with
  | nil => simp [makeRankingsFrom]
  | cons b bs ih =>
    intro row hrow
    rcases List.mem_cons.mp hrow with heq | hmem
    · subst heq
      refine ⟨le_refl _, ?_, rfl⟩
      show r0 < r0 + (b :: bs).length
      simp only [List.length_cons]
      omega
    · obtain ⟨h1, h2, h3⟩ := ih (r0 + 1) row hmem
      refine ⟨by omega, ?_, h3⟩
      simp only [List.length_cons]
      omega

/-- The number of winner rows among ranks `r, r+1, …` over `bs` is
`min |bs| (K - r + 1)` when `r ≤ K`, and 0 otherwise. -/
theorem makeRankingsFrom_winners_length (K : Nat) (r : Nat) (bs : List DBid) :
    ((makeRankingsFrom K r bs).filter (fun row => row.is_winner)).length =
      if r ≤ K then min bs.length (K - r + 1) else 0 := by
  induction bs generalizing r with
  | nil => simp [makeRankingsFrom]
  | cons b bs ih =>
    by_cases h : r ≤ K
    · simp only [makeRankingsFrom, List.filter_cons, decide_eq_true h, if_pos,
        List.length_cons, ih (r + 1), if_pos h]
      by_cases h2 : r + 1 ≤ K
      · rw [if_pos h2, Nat.min_def, Nat.min_def]
        split_ifs <;> omega
      · rw [if_neg h2, Nat.min_def]
        split_ifs <;> omega
    · simp only [makeRankingsFrom, List.filter_cons, decide_eq_false h,
        Bool.false_eq_true, if_false, ih (r + 1), if_neg h]
      rw [if_neg (by omega : ¬ r + 1 ≤ K)]

/-- C5: the rankings materialized at finalization contain exactly
`min(K, N)` rows with `is_winner = true`, where `K` is the inventory and `N`
the number of distinct bidders (the `bids` rows are unique per user by the
durable store's unique constraint, expressed by the `Nodup` hypothesis), and
a row is a winner exactly when its rank lies in `1..min(K, N)`. -/
theorem C5_winner_rows_min_inventory_bidders (K : Nat) (bids : List DBid)
    (h : (bids.map DBid.user_id).Nodup) :
    ((makeRankingRows K (sortBidsByScoreDesc bids)).filter
        (fun row => row.is_winner)).length
      = min K ((bids.map DBid.user_id).dedup.length)
    ∧ ∀ row ∈ makeRankingRows K (sortBidsByScoreDesc bids),
        (row.is_winner = true ↔
          (1 ≤ row.ranking ∧ row.ranking ≤ min K ((bids.map DBid.user_id).dedup.length))) := by
  have hded : (bids.map DBid.user_id).dedup.length = bids.length := by
    rw [List.dedup_eq_self.mpr h, List.length_map]
  have hslen : (sortBidsByScoreDesc bids).length = bids.length := by
    rw [sortBidsByScoreDesc]
    exact (List.perm_insertionSort scoreGE bids).length_eq
  rw [hded]
  constructor
  · rw [makeRankingRows, makeRankingsFrom_winners_length, hslen]
    by_cases hK : 1 ≤ K
    · rw [if_pos hK, Nat.min_def, Nat.min_def]
      split_ifs <;> omega
    · rw [if_neg hK]
      have h0 : K = 0 := by omega
      simp [h0]
  · intro row hrow
    obtain ⟨h1, h2, h3⟩ := makeRankingsFrom_mem K 1 (sortBidsByScoreDesc bids) row hrow
    rw [hslen] at h2
    rw [h3]
    simp only [decide_eq_true_eq, Nat.le_min]
    omega

/-- C5 (witness): two distinct bidders, inventory 1: exactly one winner row,
at rank 1. -/
theorem C5_winner_rows_witness :
    ((makeRankingRows 1 (sortBidsByScoreDesc [⟨("a"), 100, 5⟩, ⟨("b"), 90, 4⟩])).filter
        (fun row => row.is_winner)).length
      = min 1 (([⟨("a"), 100, 5⟩, ⟨("b"), 90, 4⟩].map DBid.user_id).dedup.length)
    ∧ ∀ row ∈ makeRankingRows 1 (sortBidsByScoreDesc [⟨("a"), 100, 5⟩, ⟨("b"), 90, 4⟩]),
        (row.is_winner = true ↔
          (1 ≤ row.ranking ∧ row.ranking ≤
            min 1 (([⟨("a"), 100, 5⟩, ⟨("b"), 90, 4⟩].map DBid.user_id).dedup.length))) :=
  C5_winner_rows_min_inventory_bidders 1 [⟨("a"), 100, 5⟩, ⟨("b"), 90, 4⟩] (by decide)

/-- C4: with `K = inventory ≥ 1` and `N` persisted bids: when `N ≥ K` the
final price is the bid price of the rank-`K` ranking row; when `0 < N < K` it
is the bid price of the rank-`N` (lowest) ranking row; when `N = 0` it is
null. -/
theorem C4_final_price (inventory : Nat) (bids : List DBid) (hK : 1 ≤ inventory) :
    (inventory ≤ bids.length →
      ∃ row ∈ makeRankingRows inventory (sortBidsByScoreDesc bids),
        row.ranking = inventory
        ∧ computeFinalPrice inventory (sortBidsByScoreDesc bids) = some row.bid_price)
    ∧ (1 ≤ bids.length → bids.length < inventory →
      ∃ row ∈ makeRankingRows inventory (sortBidsByScoreDesc bids),
        row.ranking = bids.length
        ∧ computeFinalPrice inventory (sortBidsByScoreDesc bids) = some row.bid_price)
    ∧ (bids.length = 0 → computeFinalPrice inventory (sortBidsByScoreDesc bids) = none) := by
  have hslen : (sortBidsByScoreDesc bids).length = bids.length := by
    rw [sortBidsByScoreDesc]
    exact (List.perm_insertionSort scoreGE bids).length_eq
  refine ⟨?_, ?_, ?_⟩
  · intro hNK
    have hne : (sortBidsByScoreDesc bids).isEmpty = false :=
      length_pos_isEmpty_false _ (by omega)
    have hi : inventory - 1 < (sortBidsByScoreDesc bids).length := by omega
    have hbex : ∃ b, (sortBidsByScoreDesc bids).get? (inventory - 1) = some b := by
      rw [List.get?_eq_get hi]
      exact ⟨_, rfl⟩
    obtain ⟨b, hb⟩ := hbex
    have hrow : (makeRankingRows inventory (sortBidsByScoreDesc bids)).get? (inventory - 1) =
        some { user_id := b.user_id, ranking := 1 + (inventory - 1), bid_price := b.bid_price
               bid_score := b.bid_score
               is_winner := decide (1 + (inventory - 1) ≤ inventory) } := by
      rw [makeRankingRows, makeRankingsFrom_get, hb]
      rfl
    refine ⟨_, List.get?_mem hrow, ?_, ?_⟩
    · show 1 + (inventory - 1) = inventory
      omega
    · show computeFinalPrice inventory (sortBidsByScoreDesc bids) = some b.bid_price
      simp only [computeFinalPrice, hne, Bool.false_eq_true, if_false]
      rw [if_pos (show inventory ≤ (sortBidsByScoreDesc bids).length by omega)]
      simp only [pyIndex]
      rw [if_pos (show (0 : Int) ≤ (inventory : Int) - 1 by omega),
        show ((inventory : Int) - 1).toNat = inventory - 1 by omega, hb]
      rfl
  · intro hN hNK
    have hne : (sortBidsByScoreDesc bids).isEmpty = false :=
      length_pos_isEmpty_false _ (by omega)
    have hi : bids.length - 1 < (sortBidsByScoreDesc bids).length := by omega
    have hbex : ∃ b, (sortBidsByScoreDesc bids).get? (bids.length - 1) = some b := by
      rw [List.get?_eq_get hi]
      exact ⟨_, rfl⟩
    obtain ⟨b, hb⟩ := hbex
    have hrow : (makeRankingRows inventory (sortBidsByScoreDesc bids)).get? (bids.length - 1) =
        some { user_id := b.user_id, ranking := 1 + (bids.length - 1), bid_price := b.bid_price
               bid_score := b.bid_score
               is_winner := decide (1 + (bids.length - 1) ≤ inventory) } := by
      rw [makeRankingRows, makeRankingsFrom_get, hb]
      rfl
    refine ⟨_, List.get?_mem hrow, ?_, ?_⟩
    · show 1 + (bids.length - 1) = bids.length
      omega
    · show computeFinalPrice inventory (sortBidsByScoreDesc bids) = some b.bid_price
      simp only [computeFinalPrice, hne, Bool.false_eq_true, if_false]
      rw [if_neg (show ¬ inventory ≤ (sortBidsByScoreDesc bids).length by omega)]
      simp only [pyIndex]
      rw [if_neg (show ¬ (0 : Int) ≤ -1 by omega),
        if_neg (show ¬ ((sortBidsByScoreDesc bids).length : Int) + -1 < 0 by omega),
        show (((sortBidsByScoreDesc bids).length : Int) + -1).toNat = bids.length - 1 by omega,
        hb]
      rfl
  · intro h0
    have hemp : (sortBidsByScoreDesc bids).isEmpty = true :=
      length_zero_isEmpty_true _ (by omega)
    simp [computeFinalPrice, hemp]

/-- C4 (witness): branch `N ≥ K` with one bid and inventory 1, branch
`0 < N < K` with one bid and inventory 3, and the empty branch. -/
theorem C4_final_price_witness :
    (∃ row ∈ makeRankingRows 1 (sortBidsByScoreDesc [⟨("u"), 100, 5⟩]),
      row.ranking = 1
      ∧ computeFinalPrice 1 (sortBidsByScoreDesc [⟨("u"), 100, 5⟩]) = some row.bid_price)
    ∧ (∃ row ∈ makeRankingRows 3 (sortBidsByScoreDesc [⟨("u"), 100, 5⟩]),
      row.ranking = 1
      ∧ computeFinalPrice 3 (sortBidsByScoreDesc [⟨("u"), 100, 5⟩]) = some row.bid_price)
    ∧ computeFinalPrice 2 (sortBidsByScoreDesc []) = none :=
  ⟨(C4_final_price 1 [⟨("u"), 100, 5⟩] (by decide)).1 (by decide),
   (C4_final_price 3 [⟨("u"), 100, 5⟩] (by decide)).2.1 (by decide) (by decide),
   (C4_final_price 2 [] (by decide)).2.2 rfl⟩

end FlashSale
